import Mathlib

/-!
pmtiles-cli: the offset writer and the `extract` command line.

A shallow embedding of

* `tools/pmtiles-cli/go-pmtiles/pmtiles/offset_writer.go` (`offsetWriter`,
  `newOffsetWriter`, `offsetWriter.Write`), and
* `tools/pmtiles-cli/main.go` (`main`, `runExtract`),

together with the parts of Go's standard library they run on: `io.WriterAt`
(an interface, taken as a parameter, with an in-memory model sink), and the
`flag` and `strconv` packages (transcribed from the Go standard library).

Go strings are modelled as `List Char`; every comparison the code makes is
against an ASCII character.  `int64` values are integers reduced with
`wrapInt64`, `int8` conversions are `toInt8`; `int` is 64 bits wide
(`strconv.IntSize = 64`).  Floating point is not interpreted (`FloatOps`).
-/

namespace Pmtiles

/-! ## offset_writer.go -/

/-- A Go `byte`. -/
abbrev Byte := UInt8

/-- The largest `int64`. -/
def maxInt64 : Int := 9223372036854775807

/-- The value an `int64` holds after an arithmetic result `x`: Go wraps
signed overflow around, two's complement. -/
def wrapInt64 (x : Int) : Int := (x + 9223372036854775808) % 18446744073709551616 - 9223372036854775808

/-- What `WriteAt` returns: `(n int, err error)`; `err = none` is Go's `nil`. -/
structure WriteResult (ε : Type) where
  n : Int
  err : Option ε
deriving DecidableEq, Repr

/-- An `io.WriterAt`, in state-passing style: `WriteAt(p, off)` run on the sink
state returns `(n, err)` and the sink state afterwards. -/
abbrev WriterAt (σ ε : Type) := σ → List Byte → Int → WriteResult ε × σ

/-- The struct `offsetWriter`: `w io.WriterAt`, `off int64`. -/
structure offsetWriter (σ ε : Type) where
  w : WriterAt σ ε
  off : Int

/-- `newOffsetWriter(w, off)`: `return &offsetWriter{w: w, off: off}`. -/
def newOffsetWriter {σ ε : Type} (w : WriterAt σ ε) (off : Int) : offsetWriter σ ε :=
  { w := w, off := off }

/-- What one call of `Write` leaves behind: the returned pair, the writer
and the sink it points to. -/
structure WriteOut (σ ε : Type) where
  n : Int
  err : Option ε
  o : offsetWriter σ ε
  sink : σ

/-- The method `offsetWriter.Write`:
```
n, err := o.w.WriteAt(p, o.off)
o.off += int64(n)
return n, err
```
-/
def offsetWriter.Write {σ ε : Type} (o : offsetWriter σ ε) (s : σ) (p : List Byte) : WriteOut σ ε :=
  let r := o.w s p o.off
  { n := r.1.n, err := r.1.err, o := { o with off := wrapInt64 (o.off + r.1.n) }, sink := r.2 }

/-- A sequence of `Write` calls on one writer, in order; returns the writer
and the sink after the last call. -/
def offsetWriter.writeSeq {σ ε : Type} (o : offsetWriter σ ε) (s : σ) : List (List Byte) → offsetWriter σ ε × σ
  | [] => (o, s)
  | p :: ps =>
    let r := o.Write s p
    r.o.writeSeq r.sink ps

/-! ### Model sinks -/

/-- The error of the model sinks. -/
inductive SinkErr
  | negativeOffset
  | shortWrite
deriving DecidableEq, Repr

/-- The contents of an in-memory sink: the byte at each position, `none`
where nothing was ever written. -/
abbrev MemSink := Int → Option Byte

/-- The sink nothing has been written to. -/
def MemSink.empty : MemSink := fun _ => none

/-- The model sink that stores every write in full: `WriteAt(p, off)` puts
`p[i]` at position `off + i`, leaves every other position alone and returns
`(len(p), nil)`.  As `os.File.WriteAt` does, it refuses a negative offset,
writing nothing. -/
def memWriteAt : WriterAt MemSink SinkErr := fun s p off =>
  if off < 0 then (⟨0, some SinkErr.negativeOffset⟩, s)
  else (⟨p.length, none⟩,
        fun i => if off ≤ i ∧ i < off + p.length then p[(i - off).toNat]? else s i)

/-- A model sink of bounded capacity: positions `0 .. cap - 1` exist.  A write
that does not fit stores the bytes that do and reports a short write: the
count of bytes stored, with an error. -/
def cappedWriteAt (cap : Int) : WriterAt MemSink SinkErr := fun s p off =>
  if off < 0 then (⟨0, some SinkErr.negativeOffset⟩, s)
  else if off + p.length ≤ cap then memWriteAt s p off
  else
    let k : Nat := (cap - off).toNat
    (⟨k, some SinkErr.shortWrite⟩, (memWriteAt s (p.take k) off).2)

/-- The total length of a list of byte slices. -/
def totalLen (ps : List (List Byte)) : Nat := (ps.map List.length).sum

/-! ## strconv (Go standard library), as `flag` uses it -/

/-- A Go `string`. -/
abbrev GoString := List Char

/-- The two errors of `strconv`: `ErrSyntax` and `ErrRange`. -/
inductive NumError
  | ErrSyntax
  | ErrRange
deriving DecidableEq, Repr

/-- `lower(c)` of strconv: `c | ('x' - 'X')`, on the character code. -/
def lower (c : Char) : Nat := c.toNat ||| 32

/-- The digit a character stands for in `ParseUint`'s loop, `none` where the
loop returns a syntax error:
`'0' <= c && c <= '9'` gives `c - '0'`, `'a' <= lower(c) && lower(c) <= 'z'`
gives `lower(c) - 'a' + 10`. -/
def digitVal (c : Char) : Option Nat :=
  if 48 ≤ c.toNat ∧ c.toNat ≤ 57 then some (c.toNat - 48)
  else if 97 ≤ lower c ∧ lower c ≤ 122 then some (lower c - 97 + 10)
  else none

/-- The loop of `underscoreOK` over the number proper; `saw` is the last
character class seen. -/
def underscoreOK.loop (hex : Bool) : Char → List Char → Bool
  | saw, [] => saw != '_'
  | saw, c :: cs =>
    if (48 ≤ c.toNat ∧ c.toNat ≤ 57) ∨ (hex = true ∧ 97 ≤ lower c ∧ lower c ≤ 102) then
      underscoreOK.loop hex '0' cs
    else if c = '_' then
      if saw ≠ '0' then false else underscoreOK.loop hex '_' cs
    else if saw = '_' then false
    else underscoreOK.loop hex '!' cs

/-- `underscoreOK(s)`: underscores only between digits or between a base
prefix and a digit. -/
def underscoreOK (s0 : GoString) : Bool :=
  let s := match s0 with
    | c :: r => if c = '-' ∨ c = '+' then r else s0
    | [] => s0
  match s with
  | c0 :: c1 :: r =>
    if c0 = '0' ∧ (lower c1 = 98 ∨ lower c1 = 111 ∨ lower c1 = 120) then
      underscoreOK.loop (lower c1 == 120) '0' r
    else underscoreOK.loop false '^' s
  | _ => underscoreOK.loop false '^' s

/-- The largest `uint64`. -/
def maxUint64 : Nat := 18446744073709551615

/-- The digit loop of `ParseUint` with `base0` set and `bitSize = 64`:
accumulator `n`, the flag `underscores`; returns `(n, underscores)` or the
pair `(value, error)` of an early return. -/
def ParseUint.loop (base : Nat) : List Char → Nat → Bool → Except (Nat × NumError) (Nat × Bool)
  | [], n, underscores => .ok (n, underscores)
  | c :: cs, n, underscores =>
    if c = '_' then ParseUint.loop base cs n true
    else
      match digitVal c with
      | none => .error (0, NumError.ErrSyntax)
      | some d =>
        if d ≥ base then .error (0, NumError.ErrSyntax)
        else if n ≥ maxUint64 / base + 1 then .error (maxUint64, NumError.ErrRange)
        else
          let nb := (n * base) % 18446744073709551616
          let n1 := (nb + d) % 18446744073709551616
          if n1 < nb ∨ n1 > maxUint64 then .error (maxUint64, NumError.ErrRange)
          else ParseUint.loop base cs n1 underscores

/-- `strconv.ParseUint(s, 0, 64)`: the value and the error (`none` is `nil`). -/
def ParseUint (s0 : GoString) : Nat × Option NumError :=
  match s0 with
  | [] => (0, some NumError.ErrSyntax)
  | c0 :: r0 =>
    let bs : Nat × List Char :=
      if c0 = '0' then
        match r0 with
        | c1 :: c2 :: r =>
          if lower c1 = 98 then (2, c2 :: r)
          else if lower c1 = 111 then (8, c2 :: r)
          else if lower c1 = 120 then (16, c2 :: r)
          else (8, r0)
        | _ => (8, r0)
      else (10, s0)
    match ParseUint.loop bs.1 bs.2 0 false with
    | .error (v, e) => (v, some e)
    | .ok (n, underscores) =>
      if underscores = true ∧ underscoreOK s0 = false then (0, some NumError.ErrSyntax)
      else (n, none)

/-- `strconv.ParseInt(s, 0, 64)`: the value and the error (`none` is `nil`). -/
def ParseInt (s0 : GoString) : Int × Option NumError :=
  match s0 with
  | [] => (0, some NumError.ErrSyntax)
  | c :: r =>
    let neg : Bool := c == '-'
    let s := if c = '+' ∨ c = '-' then r else s0
    let un := ParseUint s
    if un.2 = some NumError.ErrSyntax then (0, some NumError.ErrSyntax)
    else if neg = false ∧ un.1 ≥ 9223372036854775808 then
      (9223372036854775807, some NumError.ErrRange)
    else if neg = true ∧ un.1 > 9223372036854775808 then
      (-9223372036854775808, some NumError.ErrRange)
    else
      let n := wrapInt64 un.1
      (if neg then wrapInt64 (-n) else n, none)

/-- `strconv.ParseBool(str)`; `none` is the syntax error. -/
def ParseBool (str : GoString) : Option Bool :=
  if str = "1".toList ∨ str = "t".toList ∨ str = "T".toList ∨ str = "TRUE".toList
      ∨ str = "true".toList ∨ str = "True".toList then some true
  else if str = "0".toList ∨ str = "f".toList ∨ str = "F".toList ∨ str = "FALSE".toList
      ∨ str = "false".toList ∨ str = "False".toList then some false
  else none

/-- Go's floating point, which the model does not interpret: the types
`float64` and `float32`, `strconv.ParseFloat(s, 64)` (`none` on an error), the
conversion `float32(x)` and the constant `0.05`. -/
structure FloatOps where
  F64 : Type
  F32 : Type
  ParseFloat : GoString → Option F64
  toFloat32 : F64 → F32
  lit005 : F64

/-- Floating point kept as text, for running the model on argument lists that
carry no `-overfetch` flag: a `float64` is the decimal text that denotes it.
Only plain decimal texts `digits[.digits]` of at most 300 characters are read
(all of which Go reads too, without a range error); Go reads more. -/
def textFloat : FloatOps where
  F64 := GoString
  F32 := GoString
  ParseFloat := fun s =>
    if s ≠ [] ∧ s.length ≤ 300 ∧ s.all (fun c => c.isDigit || c == '.') = true
        ∧ s.count '.' ≤ 1 ∧ s ≠ ['.']
    then some s else none
  toFloat32 := fun s => s
  lit005 := "0.05".toList

/-! ## flag (Go standard library) and main.go -/

/-- The variables the six flags of `runExtract` are bound to. -/
structure FlagVals (fl : FloatOps) where
  bbox : GoString
  minzoom : Int
  maxzoom : Int
  downloadThreads : Int
  overfetch : fl.F64
  dryRun : Bool

/-- The defaults given at `fs.String`, `fs.Int`, `fs.Float64`, `fs.Bool`. -/
def FlagVals.defaults (fl : FloatOps) : FlagVals fl :=
  { bbox := [], minzoom := -1, maxzoom := -1, downloadThreads := 4,
    overfetch := fl.lit005, dryRun := false }

/-- The flags defined on the flag set. -/
inductive FlagName
  | bbox | minzoom | maxzoom | downloadThreads | overfetch | dryRun
deriving DecidableEq, Repr

/-- The lookup `f.formal[name]`. -/
def formal (name : GoString) : Option FlagName :=
  if name = "bbox".toList then some FlagName.bbox
  else if name = "minzoom".toList then some FlagName.minzoom
  else if name = "maxzoom".toList then some FlagName.maxzoom
  else if name = "download-threads".toList then some FlagName.downloadThreads
  else if name = "overfetch".toList then some FlagName.overfetch
  else if name = "dry-run".toList then some FlagName.dryRun
  else none

/-- Whether the flag's value is a `boolFlag` (needs no argument). -/
def FlagName.IsBoolFlag : FlagName → Bool
  | FlagName.dryRun => true
  | _ => false

/-- The call `flag.Value.Set(value)` on the flag's variable; `none` is an error. -/
def FlagVals.Set {fl : FloatOps} (v : FlagVals fl) (f : FlagName) (value : GoString) :
    Option (FlagVals fl) :=
  match f with
  | FlagName.bbox => some { v with bbox := value }
  | FlagName.minzoom =>
    if (ParseInt value).2 = none then some { v with minzoom := (ParseInt value).1 } else none
  | FlagName.maxzoom =>
    if (ParseInt value).2 = none then some { v with maxzoom := (ParseInt value).1 } else none
  | FlagName.downloadThreads =>
    if (ParseInt value).2 = none then some { v with downloadThreads := (ParseInt value).1 } else none
  | FlagName.overfetch =>
    match fl.ParseFloat value with
    | some x => some { v with overfetch := x }
    | none => none
  | FlagName.dryRun =>
    match ParseBool value with
    | some b => some { v with dryRun := b }
    | none => none

/-- The scan `for i := 1; i < len(name); i++ { if name[i] == '=' ... }` of
`parseOne`, run on `name[1:]`: the text before the first `=` and the text
after it. -/
def cutAtEquals : List Char → Option (List Char × List Char)
  | [] => none
  | c :: cs =>
    if c = '=' then some ([], cs)
    else match cutAtEquals cs with
      | some (a, b) => some (c :: a, b)
      | none => none

/-- What `parseOne` returns, with `f.args` and the variables afterwards. -/
inductive ParseOne (fl : FloatOps)
  | seen (v : FlagVals fl) (args : List GoString)
  | stop (args : List GoString)
  | errHelp
  | failf

/-- The method `FlagSet.parseOne` of the `flag` package. -/
def parseOne (fl : FloatOps) (v : FlagVals fl) (args : List GoString) : ParseOne fl :=
  match args with
  | [] => ParseOne.stop []
  | s :: rest =>
    match s with
    | [] => ParseOne.stop args
    | [_] => ParseOne.stop args
    | c0 :: c1 :: t =>
      if c0 ≠ '-' then ParseOne.stop args
      else if c1 = '-' ∧ t = [] then ParseOne.stop rest
      else
        match (if c1 = '-' then t else c1 :: t) with
        | [] => ParseOne.failf
        | n0 :: nr =>
          if n0 = '-' ∨ n0 = '=' then ParseOne.failf
          else
            let name : GoString := match cutAtEquals nr with
              | some (a, _) => n0 :: a
              | none => n0 :: nr
            let value : Option GoString := match cutAtEquals nr with
              | some (_, b) => some b
              | none => none
            match formal name with
            | none =>
              if name = "help".toList ∨ name = "h".toList then ParseOne.errHelp
              else ParseOne.failf
            | some f =>
              if f.IsBoolFlag then
                match v.Set f (value.getD "true".toList) with
                | some w => ParseOne.seen w rest
                | none => ParseOne.failf
              else
                match value with
                | some x =>
                  match v.Set f x with
                  | some w => ParseOne.seen w rest
                  | none => ParseOne.failf
                | none =>
                  match rest with
                  | [] => ParseOne.failf
                  | x :: rest1 =>
                    match v.Set f x with
                    | some w => ParseOne.seen w rest1
                    | none => ParseOne.failf

/-- How `fs.Parse` ends under `flag.ExitOnError`: it returns, with the
variables set and the remaining arguments `fs.Args()`, or it has called
`os.Exit(code)`. -/
inductive ParseEnd (fl : FloatOps)
  | ok (v : FlagVals fl) (pos : List GoString)
  | exit (code : Nat)

/-- The loop of `FlagSet.Parse`, `parseOne` until it reports no flag seen.
Every flag seen consumes an argument, so `len(args)` rounds are enough
(`Parse_loop_fuel`). -/
def Parse.loop (fl : FloatOps) : Nat → FlagVals fl → List GoString → ParseEnd fl
  | 0, v, args => ParseEnd.ok v args
  | n + 1, v, args =>
    match parseOne fl v args with
    | ParseOne.seen w args1 => Parse.loop fl n w args1
    | ParseOne.stop args1 => ParseEnd.ok v args1
    | ParseOne.errHelp => ParseEnd.exit 0
    | ParseOne.failf => ParseEnd.exit 2

/-- The method `FlagSet.Parse(arguments)` with `flag.ExitOnError`. -/
def Parse (fl : FloatOps) (v : FlagVals fl) (arguments : List GoString) : ParseEnd fl :=
  Parse.loop fl arguments.length v arguments

/-- The conversion `int8(x)`: the low 8 bits, read as two's complement. -/
def toInt8 (x : Int) : Int := if x % 256 < 128 then x % 256 else x % 256 - 256

/-- The arguments of the call `pmtiles.Extract(logger, "", input, int8(*minzoom),
int8(*maxzoom), "", *bbox, output, *downloadThreads, float32(*overfetch),
*dryRun)`, the logger left out. -/
structure ExtractCall (fl : FloatOps) where
  arg2 : GoString
  input : GoString
  minzoom : Int
  maxzoom : Int
  arg6 : GoString
  bbox : GoString
  output : GoString
  downloadThreads : Int
  overfetch : fl.F32
  dryRun : Bool

/-- What a run of the program comes to, up to the call of `pmtiles.Extract`. -/
inductive Outcome (fl : FloatOps)
  /-- `usage()` then `os.Exit(2)`. -/
  | usageExit2
  /-- `os.Exit(code)` inside `fs.Parse`. -/
  | parseExit (code : Nat)
  /-- `pmtiles.Extract` is called, once, with these arguments. -/
  | callExtract (call : ExtractCall fl)

/-- The function `runExtract(args)` of main.go. -/
def runExtract (fl : FloatOps) (args : List GoString) : Outcome fl :=
  match Parse fl (FlagVals.defaults fl) args with
  | ParseEnd.exit code => Outcome.parseExit code
  | ParseEnd.ok v pos =>
    match pos with
    | input :: output :: _ =>
      Outcome.callExtract
        { arg2 := [], input := input, minzoom := toInt8 v.minzoom, maxzoom := toInt8 v.maxzoom,
          arg6 := [], bbox := v.bbox, output := output, downloadThreads := v.downloadThreads,
          overfetch := fl.toFloat32 v.overfetch, dryRun := v.dryRun }
    | _ => Outcome.usageExit2

/-- The function `main()` of main.go, on `os.Args`. -/
def main (fl : FloatOps) (osArgs : List GoString) : Outcome fl :=
  match osArgs with
  | _ :: cmd :: rest =>
    if cmd = "extract".toList then runExtract fl rest else Outcome.usageExit2
  | _ => Outcome.usageExit2

/-- The request `runExtract` makes when no flag is given. -/
def defaultCall (fl : FloatOps) (input output : GoString) : ExtractCall fl :=
  { arg2 := [], input := input, minzoom := -1, maxzoom := -1, arg6 := [], bbox := [],
    output := output, downloadThreads := 4, overfetch := fl.toFloat32 fl.lit005, dryRun := false }

/-- An argument at which `parseOne` would not stop: at least two characters,
the first a `-`. -/
def startsFlag (s : GoString) : Bool :=
  match s with
  | c0 :: _ :: _ => c0 == '-'
  | _ => false

/-! ## Theorems: offset_writer.go -/

theorem wrapInt64_of_inRange (x : Int) (h1 : -9223372036854775808 ≤ x) (h2 : x ≤ maxInt64) :
    wrapInt64 x = x := by
  unfold wrapInt64
  unfold maxInt64 at h2
  omega

theorem memWriteAt_of_nonneg (s : MemSink) (p : List Byte) (off : Int) (h : 0 ≤ off) :
    memWriteAt s p off =
      (⟨p.length, none⟩,
        fun i => if off ≤ i ∧ i < off + p.length then p[(i - off).toNat]? else s i) := by
  unfold memWriteAt
  rw [if_neg (by omega)]

theorem writeSeq_memWriteAt (ps : List (List Byte)) :
    ∀ (off : Int) (s : MemSink), 0 ≤ off → off + totalLen ps ≤ maxInt64 →
      ((newOffsetWriter memWriteAt off).writeSeq s ps).1.off = off + totalLen ps ∧
      ∀ i : Int, ((newOffsetWriter memWriteAt off).writeSeq s ps).2 i =
        if off ≤ i ∧ i < off + totalLen ps then ps.flatten[(i - off).toNat]? else s i := by
  induction ps with
  | nil =>
    intro off s _ _
    simp only [offsetWriter.writeSeq, totalLen, newOffsetWriter, List.map_nil, List.sum_nil,
      Nat.cast_zero, add_zero, true_and]
    intro i
    rw [if_neg (by omega)]
  | cons p ps ih =>
    intro off s h0 hmax
    have htot : totalLen (p :: ps) = p.length + totalLen ps := by
      simp [totalLen]
    rw [htot] at hmax ⊢
    have hwrap : wrapInt64 (off + p.length) = off + p.length := by
      apply wrapInt64_of_inRange <;> push_cast at hmax ⊢ <;> omega
    have hstep : (newOffsetWriter memWriteAt off).writeSeq s (p :: ps) =
        (newOffsetWriter memWriteAt (off + p.length)).writeSeq
          (fun i => if off ≤ i ∧ i < off + p.length then p[(i - off).toNat]? else s i) ps := by
      simp only [offsetWriter.writeSeq, offsetWriter.Write, newOffsetWriter,
        memWriteAt_of_nonneg s p off h0, hwrap]
    rw [hstep]
    obtain ⟨ih1, ih2⟩ := ih (off + p.length) _ (by omega) (by push_cast at hmax ⊢; omega)
    refine ⟨by rw [ih1]; push_cast; ring, ?_⟩
    intro i
    rw [ih2 i]
    by_cases hA : off ≤ i ∧ i < off + p.length
    · have hk : (i - off).toNat < p.length := by omega
      rw [if_neg (by omega), if_pos hA, if_pos (by push_cast; omega)]
      simp [List.getElem?_append_left hk]
    · rw [if_neg hA]
      by_cases hB : off + ↑p.length ≤ i ∧ i < off + ↑p.length + ↑(totalLen ps)
      · rw [if_pos hB, if_pos (by push_cast; omega)]
        have hk : p.length ≤ (i - off).toNat := by omega
        simp only [List.flatten_cons]
        rw [List.getElem?_append_right hk]
        congr 1
        omega
      · rw [if_neg hB, if_neg (by push_cast; omega)]

theorem length_flatten_eq_totalLen (ps : List (List Byte)) :
    ps.flatten.length = totalLen ps := by
  induction ps with
  | nil => rfl
  | cons p ps ih =>
    rw [List.flatten_cons, List.length_append, ih]
    simp only [totalLen, List.map_cons, List.sum_cons]

/-- C2: the first `Write(p)` on `newOffsetWriter(w, off)`, `off ≥ 0`, over the
model sink that stores writes in full, returns `n = len(p)` and no error, leaves
`p` at the positions `off .. off + len(p) - 1` of the sink and changes no
position outside that interval. -/
theorem Write_first_memWriteAt (s : MemSink) (p : List Byte) (off : Int) (h0 : 0 ≤ off) :
    ((newOffsetWriter memWriteAt off).Write s p).n = p.length ∧
    ((newOffsetWriter memWriteAt off).Write s p).err = none ∧
    (∀ (k : Nat) (hk : k < p.length),
      ((newOffsetWriter memWriteAt off).Write s p).sink (off + k) = some (p.get ⟨k, hk⟩)) ∧
    (∀ i : Int, i < off ∨ off + p.length ≤ i →
      ((newOffsetWriter memWriteAt off).Write s p).sink i = s i) := by
  simp only [offsetWriter.Write, newOffsetWriter, memWriteAt_of_nonneg s p off h0]
  refine ⟨trivial, trivial, ?_, ?_⟩
  · intro k hk
    rw [if_pos (by omega)]
    simp [hk]
  · intro i hi
    rw [if_neg (by omega)]

theorem Write_first_memWriteAt_witness :
    ((newOffsetWriter memWriteAt 3).Write MemSink.empty [10, 20]).n = ([10, 20] : List Byte).length ∧
    ((newOffsetWriter memWriteAt 3).Write MemSink.empty [10, 20]).err = none ∧
    (∀ (k : Nat) (hk : k < ([10, 20] : List Byte).length),
      ((newOffsetWriter memWriteAt 3).Write MemSink.empty [10, 20]).sink (3 + k)
        = some (([10, 20] : List Byte).get ⟨k, hk⟩)) ∧
    (∀ i : Int, i < 3 ∨ 3 + ([10, 20] : List Byte).length ≤ i →
      ((newOffsetWriter memWriteAt 3).Write MemSink.empty [10, 20]).sink i = MemSink.empty i) :=
  Write_first_memWriteAt MemSink.empty [10, 20] 3 (by decide)

/-- C3: `Write(p)` returns exactly the pair `(n, err)` that the sink's
`WriteAt(p, o.off)` returned, whatever the sink, the writer's state and `p`:
the count is the sink's count, the error is non-nil exactly when the sink's
is, and the sink is left as `WriteAt` left it. -/
theorem Write_returns_WriteAt_result {σ ε : Type} (o : offsetWriter σ ε) (s : σ) (p : List Byte) :
    (o.Write s p).n = (o.w s p o.off).1.n ∧
    (o.Write s p).err = (o.w s p o.off).1.err ∧
    ((o.Write s p).err ≠ none ↔ (o.w s p o.off).1.err ≠ none) ∧
    (o.Write s p).sink = (o.w s p o.off).2 :=
  ⟨rfl, rfl, Iff.rfl, rfl⟩

/-- C1, as the code has it: a `Write(p)` writes at the writer's stored offset,
and moves it.  In any state of the writer, `Write(p)` is the sink's
`WriteAt(p, o.off)` and leaves the stored offset at `o.off + n` (as an `int64`),
`n` being the count returned.  So the first `Write` on `newOffsetWriter(w, off)`
calls `WriteAt(p1, off)`, and the next `Write(p2)` calls `WriteAt(p2, off + n)`. -/
theorem Write_at_stored_offset {σ ε : Type} (w : WriterAt σ ε) (off : Int) (s : σ)
    (p1 p2 : List Byte) :
    (∀ (o : offsetWriter σ ε) (t : σ) (p : List Byte),
      (o.Write t p).sink = (o.w t p o.off).2 ∧
      (o.Write t p).n = (o.w t p o.off).1.n ∧
      (o.Write t p).o.off = wrapInt64 (o.off + (o.Write t p).n) ∧
      (o.Write t p).o.w = o.w) ∧
    ((newOffsetWriter w off).Write s p1).sink = (w s p1 off).2 ∧
    ((newOffsetWriter w off).Write s p1).n = (w s p1 off).1.n ∧
    ((newOffsetWriter w off).Write s p1).o.off
      = wrapInt64 (off + ((newOffsetWriter w off).Write s p1).n) ∧
    (((newOffsetWriter w off).Write s p1).o.Write ((newOffsetWriter w off).Write s p1).sink p2).sink
      = (w (w s p1 off).2 p2 (wrapInt64 (off + (w s p1 off).1.n))).2 ∧
    (((newOffsetWriter w off).Write s p1).o.Write ((newOffsetWriter w off).Write s p1).sink p2).n
      = (w (w s p1 off).2 p2 (wrapInt64 (off + (w s p1 off).1.n))).1.n ∧
    (((newOffsetWriter w off).Write s p1).o.Write ((newOffsetWriter w off).Write s p1).sink p2).err
      = (w (w s p1 off).2 p2 (wrapInt64 (off + (w s p1 off).1.n))).1.err :=
  ⟨fun _ _ _ => ⟨rfl, rfl, rfl, rfl⟩, rfl, rfl, rfl, rfl, rfl, rfl⟩

/-- C1 as stated fails: on a writer made with offset 0 over the empty model
sink, `Write([1])` then `Write([2])` leaves 1 at position 0 and 2 at position
1; the second `Write` did not start at offset 0, where it would have left 2. -/
theorem Write_second_not_at_construction_offset :
    (((newOffsetWriter memWriteAt 0).Write MemSink.empty [1]).o.Write
        ((newOffsetWriter memWriteAt 0).Write MemSink.empty [1]).sink [2]).sink 0 = some 1 ∧
    (((newOffsetWriter memWriteAt 0).Write MemSink.empty [1]).o.Write
        ((newOffsetWriter memWriteAt 0).Write MemSink.empty [1]).sink [2]).sink 1 = some 2 ∧
    (memWriteAt ((newOffsetWriter memWriteAt 0).Write MemSink.empty [1]).sink [2] 0).2 0 = some 2 ∧
    (memWriteAt ((newOffsetWriter memWriteAt 0).Write MemSink.empty [1]).sink [2] 0).2 1 = none ∧
    ((newOffsetWriter memWriteAt 0).Write MemSink.empty [1]).o.off = 1 := by
  decide

/-- C4: two writers over the same model sink whose target regions
`[off1, off1 + len(p1))` and `[off2, off2 + len(p2))` share no position:
`Write(p1)` on the first and `Write(p2)` on the second leave the same sink
contents, return the same results and leave the same stored offsets in either
order. -/
theorem Write_disjoint_commute (s : MemSink) (off1 off2 : Int) (p1 p2 : List Byte)
    (hdisj : ∀ i : Int, ¬ ((off1 ≤ i ∧ i < off1 + p1.length) ∧ (off2 ≤ i ∧ i < off2 + p2.length))) :
    ((newOffsetWriter memWriteAt off2).Write
        ((newOffsetWriter memWriteAt off1).Write s p1).sink p2).sink
      = ((newOffsetWriter memWriteAt off1).Write
        ((newOffsetWriter memWriteAt off2).Write s p2).sink p1).sink ∧
    ((newOffsetWriter memWriteAt off1).Write s p1).n
      = ((newOffsetWriter memWriteAt off1).Write
        ((newOffsetWriter memWriteAt off2).Write s p2).sink p1).n ∧
    ((newOffsetWriter memWriteAt off1).Write s p1).err
      = ((newOffsetWriter memWriteAt off1).Write
        ((newOffsetWriter memWriteAt off2).Write s p2).sink p1).err ∧
    ((newOffsetWriter memWriteAt off2).Write
        ((newOffsetWriter memWriteAt off1).Write s p1).sink p2).n
      = ((newOffsetWriter memWriteAt off2).Write s p2).n ∧
    ((newOffsetWriter memWriteAt off2).Write
        ((newOffsetWriter memWriteAt off1).Write s p1).sink p2).err
      = ((newOffsetWriter memWriteAt off2).Write s p2).err ∧
    ((newOffsetWriter memWriteAt off1).Write s p1).o.off
      = ((newOffsetWriter memWriteAt off1).Write
        ((newOffsetWriter memWriteAt off2).Write s p2).sink p1).o.off ∧
    ((newOffsetWriter memWriteAt off2).Write
        ((newOffsetWriter memWriteAt off1).Write s p1).sink p2).o.off
      = ((newOffsetWriter memWriteAt off2).Write s p2).o.off := by
  simp only [offsetWriter.Write, newOffsetWriter, memWriteAt]
  by_cases h1 : off1 < 0 <;> by_cases h2 : off2 < 0 <;>
    simp only [h1, h2, if_true, if_false, and_self, and_true]
  funext i
  have hi := hdisj i
  by_cases hA : off1 ≤ i ∧ i < off1 + p1.length
  · rw [if_neg (fun hB => hi ⟨hA, hB⟩), if_pos hA, if_pos hA]
  · rw [if_neg hA]
    by_cases hB : off2 ≤ i ∧ i < off2 + p2.length
    · rw [if_pos hB, if_neg hA]
    · rw [if_neg hB, if_neg hA]

theorem Write_disjoint_commute_witness :
    (∀ i : Int, ¬ (((0 : Int) ≤ i ∧ i < 0 + ([1, 2] : List Byte).length) ∧
        ((2 : Int) ≤ i ∧ i < 2 + ([3] : List Byte).length))) ∧
    ((newOffsetWriter memWriteAt 2).Write
        ((newOffsetWriter memWriteAt 0).Write MemSink.empty [1, 2]).sink [3]).sink
      = ((newOffsetWriter memWriteAt 0).Write
        ((newOffsetWriter memWriteAt 2).Write MemSink.empty [3]).sink [1, 2]).sink :=
  ⟨fun i h => by simp only [List.length_cons, List.length_nil] at h; omega,
   (Write_disjoint_commute MemSink.empty 0 2 [1, 2] [3]
      (fun i h => by simp only [List.length_cons, List.length_nil] at h; omega)).1⟩

/-- C8 as stated fails at the top of the `int64` range: a writer made with
offset `2^63 - 1` over the empty model sink writes one byte, the sink stores
it in full at position `2^63 - 1`, and the stored offset becomes `-2^63`, not
`2^63`; a second one-byte `Write` is then refused by the sink and nothing
lands at position `2^63`. -/
theorem writeSeq_offset_wraps :
    ((newOffsetWriter memWriteAt 9223372036854775807).Write MemSink.empty [7]).n = 1 ∧
    ((newOffsetWriter memWriteAt 9223372036854775807).Write MemSink.empty [7]).err = none ∧
    ((newOffsetWriter memWriteAt 9223372036854775807).writeSeq MemSink.empty [[7]]).2
      9223372036854775807 = some 7 ∧
    ((newOffsetWriter memWriteAt 9223372036854775807).writeSeq MemSink.empty [[7]]).1.off
      = -9223372036854775808 ∧
    ((newOffsetWriter memWriteAt 9223372036854775807).writeSeq MemSink.empty [[7]]).1.off
      ≠ 9223372036854775807 + totalLen [[7]] ∧
    ((newOffsetWriter memWriteAt 9223372036854775807).writeSeq MemSink.empty [[7], [8]]).2
      9223372036854775808 = none := by
  decide

/-- C8, within the `int64` range: for `off ≥ 0` and byte slices `p1 .. pk` with
`off + Σ len(pi) ≤ 2^63 - 1`, writing them in order on one
`newOffsetWriter(w, off)` over the model sink that stores writes in full leaves
the stored offset at `off + Σ len(pi)` and the concatenation `p1 ++ .. ++ pk` at
the positions from `off` on, every other position unchanged.  On every sink,
each `Write` moves the stored offset by the `n` it returned, as an `int64`, also
when that `n` is the partial count of a short write that reports an error. -/
theorem writeSeq_concat_inRange (off : Int) (ps : List (List Byte)) (s : MemSink)
    (h0 : 0 ≤ off) (hmax : off + totalLen ps ≤ maxInt64) :
    ((newOffsetWriter memWriteAt off).writeSeq s ps).1.off = off + totalLen ps ∧
    ps.flatten.length = totalLen ps ∧
    (∀ (j : Nat) (hj : j < ps.flatten.length),
      ((newOffsetWriter memWriteAt off).writeSeq s ps).2 (off + j) = some (ps.flatten.get ⟨j, hj⟩)) ∧
    (∀ i : Int, i < off ∨ off + totalLen ps ≤ i →
      ((newOffsetWriter memWriteAt off).writeSeq s ps).2 i = s i) ∧
    (∀ (σ ε : Type) (o : offsetWriter σ ε) (t : σ) (p : List Byte),
      (o.Write t p).o.off = wrapInt64 (o.off + (o.Write t p).n) ∧
      (-9223372036854775808 ≤ o.off + (o.Write t p).n ∧ o.off + (o.Write t p).n ≤ maxInt64 →
        (o.Write t p).o.off = o.off + (o.Write t p).n)) ∧
    ((newOffsetWriter (cappedWriteAt 4) 2).Write MemSink.empty [1, 2, 3]).n = 2 ∧
    ((newOffsetWriter (cappedWriteAt 4) 2).Write MemSink.empty [1, 2, 3]).err
      = some SinkErr.shortWrite ∧
    ((newOffsetWriter (cappedWriteAt 4) 2).Write MemSink.empty [1, 2, 3]).o.off = 4 := by
  obtain ⟨h1, h2⟩ := writeSeq_memWriteAt ps off s h0 hmax
  have hlen := length_flatten_eq_totalLen ps
  refine ⟨h1, hlen, ?_, ?_, ?_, by decide, by decide, by decide⟩
  · intro j hj
    rw [h2, if_pos (by omega)]
    simp [hj]
  · intro i hi
    rw [h2, if_neg (by omega)]
  · intro σ ε o t p
    exact ⟨rfl, fun h => wrapInt64_of_inRange _ h.1 h.2⟩

theorem writeSeq_concat_inRange_witness :
    ((newOffsetWriter memWriteAt 5).writeSeq MemSink.empty [[1, 2], [], [3]]).1.off
      = 5 + totalLen [[1, 2], [], [3]] ∧
    ((newOffsetWriter memWriteAt 5).writeSeq MemSink.empty [[1, 2], [], [3]]).2 7 = some 3 :=
  ⟨(writeSeq_concat_inRange 5 [[1, 2], [], [3]] MemSink.empty (by decide) (by decide)).1,
   by decide⟩

/-! ## Theorems: the flag set and main.go -/

theorem parseOne_seen_length (fl : FloatOps) (v w : FlagVals fl) (args args1 : List GoString)
    (h : parseOne fl v args = ParseOne.seen w args1) : args1.length < args.length := by
  unfold parseOne at h
  repeat' split at h
  all_goals try dsimp only at h
  all_goals repeat' split at h
  all_goals first
    | (simp only [ParseOne.seen.injEq] at h; obtain ⟨_, rfl⟩ := h
       simp only [List.length_cons]; omega)
    | (simp at h)

/-- The rounds given to the loop of `Parse` are enough: more of them change
nothing. -/
theorem Parse_loop_fuel (fl : FloatOps) (n : Nat) :
    ∀ (v : FlagVals fl) (args : List GoString), args.length ≤ n →
      Parse.loop fl n v args = Parse fl v args := by
  induction n using Nat.strong_induction_on with
  | _ n ih =>
    intro v args hn
    unfold Parse
    cases n with
    | zero =>
      have : args.length = 0 := by omega
      rw [this]
    | succ n =>
      cases hl : args.length with
      | zero =>
        have : args = [] := List.length_eq_zero.mp hl
        subst this
        simp [Parse.loop, parseOne]
      | succ m =>
        simp only [Parse.loop]
        cases hp : parseOne fl v args with
        | seen w args1 =>
          have hlt := parseOne_seen_length fl v w args args1 hp
          simp only
          rw [ih n (by omega) w args1 (by omega), ih m (by omega) w args1 (by omega)]
        | stop args1 => rfl
        | errHelp => rfl
        | failf => rfl

theorem parseOne_stop_of_not_startsFlag (fl : FloatOps) (v : FlagVals fl) (s : GoString)
    (rest : List GoString) (h : startsFlag s = false) :
    parseOne fl v (s :: rest) = ParseOne.stop (s :: rest) := by
  unfold parseOne
  match s, h with
  | [], _ => rfl
  | [_], _ => rfl
  | c0 :: c1 :: t, h =>
    simp only [startsFlag, beq_eq_false_iff_ne, ne_eq] at h
    simp only [ne_eq, h, not_false_eq_true, if_true]

theorem cutAtEquals_append (a b : List Char) (h : ∀ c ∈ a, c ≠ '=') :
    cutAtEquals (a ++ '=' :: b) = some (a, b) := by
  induction a with
  | nil => simp [cutAtEquals]
  | cons c a ih =>
    have hc : c ≠ '=' := h c (List.mem_cons_self _ _)
    have ha : ∀ d ∈ a, d ≠ '=' := fun d hd => h d (List.mem_cons_of_mem _ hd)
    simp [cutAtEquals, hc, ih ha]

/-- The argument `--name=value` for a defined flag that takes a value:
`parseOne` sets the flag from `value` and consumes the one argument. -/
theorem parseOne_name_eq_value (fl : FloatOps) (v : FlagVals fl) (n0 : Char) (nr val : List Char)
    (rest : List GoString) (f : FlagName) (h0 : n0 ≠ '-') (h1 : n0 ≠ '=')
    (hnr : ∀ c ∈ nr, c ≠ '=') (hf : formal (n0 :: nr) = some f) (hb : f.IsBoolFlag = false) :
    parseOne fl v (('-' :: '-' :: n0 :: (nr ++ '=' :: val)) :: rest)
      = match v.Set f val with
        | some w => ParseOne.seen w rest
        | none => ParseOne.failf := by
  have hc := cutAtEquals_append nr val hnr
  unfold parseOne
  simp only [ne_eq, not_true_eq_false, if_false, true_and, if_true, h0, h1, or_self, hc, hf, hb,
    Bool.false_eq_true]
  simp

theorem parseOne_minzoom (fl : FloatOps) (v : FlagVals fl) (val : GoString) (rest : List GoString)
    (N : Int) (h : ParseInt val = (N, none)) :
    parseOne fl v (("--minzoom=".toList ++ val) :: rest)
      = ParseOne.seen { v with minzoom := N } rest := by
  have := parseOne_name_eq_value fl v 'm' "inzoom".toList val rest FlagName.minzoom
    (by decide) (by decide) (by decide) (by decide) rfl
  simp only [FlagVals.Set, h] at this
  exact this

theorem parseOne_maxzoom (fl : FloatOps) (v : FlagVals fl) (val : GoString) (rest : List GoString)
    (N : Int) (h : ParseInt val = (N, none)) :
    parseOne fl v (("--maxzoom=".toList ++ val) :: rest)
      = ParseOne.seen { v with maxzoom := N } rest := by
  have := parseOne_name_eq_value fl v 'm' "axzoom".toList val rest FlagName.maxzoom
    (by decide) (by decide) (by decide) (by decide) rfl
  simp only [FlagVals.Set, h] at this
  exact this

theorem parseOne_downloadThreads (fl : FloatOps) (v : FlagVals fl) (val : GoString)
    (rest : List GoString) (N : Int) (h : ParseInt val = (N, none)) :
    parseOne fl v (("--download-threads=".toList ++ val) :: rest)
      = ParseOne.seen { v with downloadThreads := N } rest := by
  have := parseOne_name_eq_value fl v 'd' "ownload-threads".toList val rest
    FlagName.downloadThreads (by decide) (by decide) (by decide) (by decide) rfl
  simp only [FlagVals.Set, h] at this
  exact this

theorem parseOne_bbox (fl : FloatOps) (v : FlagVals fl) (val : GoString) (rest : List GoString) :
    parseOne fl v (("--bbox=".toList ++ val) :: rest)
      = ParseOne.seen { v with bbox := val } rest := by
  have := parseOne_name_eq_value fl v 'b' "box".toList val rest FlagName.bbox
    (by decide) (by decide) (by decide) (by decide) rfl
  simp only [FlagVals.Set] at this
  exact this

theorem runExtract_no_flags (fl : FloatOps) (input output : GoString)
    (hin : startsFlag input = false) :
    runExtract fl [input, output] = Outcome.callExtract (defaultCall fl input output) := by
  simp only [runExtract, Parse, List.length, Parse.loop,
    parseOne_stop_of_not_startsFlag fl _ _ _ hin]
  rfl

theorem runExtract_minzoom (fl : FloatOps) (val input output : GoString) (N : Int)
    (h : ParseInt val = (N, none)) (hin : startsFlag input = false) :
    runExtract fl ["--minzoom=".toList ++ val, input, output]
      = Outcome.callExtract { defaultCall fl input output with minzoom := toInt8 N } := by
  simp only [runExtract, Parse, List.length, Parse.loop, parseOne_minzoom fl _ val _ N h,
    parseOne_stop_of_not_startsFlag fl _ _ _ hin]
  rfl

theorem runExtract_maxzoom (fl : FloatOps) (val input output : GoString) (N : Int)
    (h : ParseInt val = (N, none)) (hin : startsFlag input = false) :
    runExtract fl ["--maxzoom=".toList ++ val, input, output]
      = Outcome.callExtract { defaultCall fl input output with maxzoom := toInt8 N } := by
  simp only [runExtract, Parse, List.length, Parse.loop, parseOne_maxzoom fl _ val _ N h,
    parseOne_stop_of_not_startsFlag fl _ _ _ hin]
  rfl

theorem toInt8_eq_formula (N : Int) : toInt8 N = (N + 128) % 256 - 128 := by
  unfold toInt8
  split <;> omega

theorem toInt8_eq_self_iff (N : Int) : toInt8 N = N ↔ -128 ≤ N ∧ N ≤ 127 := by
  unfold toInt8
  split <;> omega

theorem runExtract_call_from_Parse (fl : FloatOps) (args : List GoString) (call : ExtractCall fl)
    (h : runExtract fl args = Outcome.callExtract call) :
    ∃ (v : FlagVals fl) (input output : GoString) (more : List GoString),
      Parse fl (FlagVals.defaults fl) args = ParseEnd.ok v (input :: output :: more) ∧
      call = { arg2 := [], input := input, minzoom := toInt8 v.minzoom,
               maxzoom := toInt8 v.maxzoom, arg6 := [], bbox := v.bbox, output := output,
               downloadThreads := v.downloadThreads, overfetch := fl.toFloat32 v.overfetch,
               dryRun := v.dryRun } := by
  unfold runExtract at h
  split at h
  · exact absurd h (by intro h; cases h)
  · rename_i v pos hp
    split at h
    · rename_i input output more
      refine ⟨v, input, output, more, hp, ?_⟩
      cases h
      rfl
    · exact absurd h (by intro h; cases h)

theorem Parse_minzoom (fl : FloatOps) (v : FlagVals fl) (val : GoString) (rest : List GoString)
    (N : Int) (h : ParseInt val = (N, none)) :
    Parse fl v (("--minzoom=".toList ++ val) :: rest) = Parse fl { v with minzoom := N } rest := by
  simp only [Parse, List.length_cons, Parse.loop, parseOne_minzoom fl v val rest N h]

theorem Parse_maxzoom (fl : FloatOps) (v : FlagVals fl) (val : GoString) (rest : List GoString)
    (N : Int) (h : ParseInt val = (N, none)) :
    Parse fl v (("--maxzoom=".toList ++ val) :: rest) = Parse fl { v with maxzoom := N } rest := by
  simp only [Parse, List.length_cons, Parse.loop, parseOne_maxzoom fl v val rest N h]

/-- Arguments after the two positionals are not read by `fs.Parse`: they stay
in `fs.Args()` and the request is the default one. -/
theorem runExtract_after_positionals (fl : FloatOps) (input output : GoString)
    (more : List GoString) (hin : startsFlag input = false) :
    runExtract fl (input :: output :: more)
      = Outcome.callExtract (defaultCall fl input output) := by
  simp only [runExtract, Parse, List.length_cons, Parse.loop,
    parseOne_stop_of_not_startsFlag fl _ _ _ hin]
  rfl

/-- C7: on `extract <input> <output>` with no flags (`input` is not taken for
a flag), `runExtract` calls `pmtiles.Extract` once with the default request:
the two positionals as input and output, 4 download threads, no dry run, the
empty bbox, and min zoom = max zoom = -1. -/
theorem runExtract_default_request (fl : FloatOps) (prog input output : GoString)
    (hin : startsFlag input = false) :
    runExtract fl [input, output] = Outcome.callExtract (defaultCall fl input output) ∧
    main fl [prog, "extract".toList, input, output]
      = Outcome.callExtract (defaultCall fl input output) ∧
    (defaultCall fl input output).input = input ∧
    (defaultCall fl input output).output = output ∧
    (defaultCall fl input output).downloadThreads = 4 ∧
    (defaultCall fl input output).dryRun = false ∧
    (defaultCall fl input output).bbox = [] ∧
    (defaultCall fl input output).minzoom = -1 ∧
    (defaultCall fl input output).maxzoom = -1 := by
  refine ⟨runExtract_no_flags fl input output hin, ?_, rfl, rfl, rfl, rfl, rfl, rfl, rfl⟩
  simp only [main, if_true]
  exact runExtract_no_flags fl input output hin

theorem runExtract_default_request_witness :
    startsFlag "in.pmtiles".toList = false ∧
    main textFloat ["pmtiles".toList, "extract".toList, "in.pmtiles".toList, "out.pmtiles".toList]
      = Outcome.callExtract (defaultCall textFloat "in.pmtiles".toList "out.pmtiles".toList) :=
  ⟨rfl, (runExtract_default_request textFloat "pmtiles".toList "in.pmtiles".toList
    "out.pmtiles".toList rfl).2.1⟩

/-- C10: with fewer than 2 arguments, with a subcommand other than `extract`,
or when the flags after `extract` parse and fewer than 2 positionals remain,
the program prints the usage text and exits with status 2; `pmtiles.Extract` is
called only when the subcommand is `extract`, the flags parse and at least 2
positionals remain. -/
theorem main_usage_or_Extract (fl : FloatOps) (osArgs : List GoString) :
    (osArgs.length < 2 → main fl osArgs = Outcome.usageExit2) ∧
    (∀ (prog cmd : GoString) (rest : List GoString), osArgs = prog :: cmd :: rest →
      cmd ≠ "extract".toList → main fl osArgs = Outcome.usageExit2) ∧
    (∀ (prog : GoString) (rest : List GoString) (v : FlagVals fl) (pos : List GoString),
      osArgs = prog :: "extract".toList :: rest →
      Parse fl (FlagVals.defaults fl) rest = ParseEnd.ok v pos → pos.length < 2 →
      main fl osArgs = Outcome.usageExit2) ∧
    (∀ call : ExtractCall fl, main fl osArgs = Outcome.callExtract call →
      ∃ (prog : GoString) (rest : List GoString) (v : FlagVals fl) (pos : List GoString),
        osArgs = prog :: "extract".toList :: rest ∧
        Parse fl (FlagVals.defaults fl) rest = ParseEnd.ok v pos ∧ 2 ≤ pos.length) := by
  refine ⟨?_, ?_, ?_, ?_⟩
  · intro h
    match osArgs, h with
    | [], _ => rfl
    | [_], _ => rfl
    | _ :: _ :: _, h => exact absurd h (by simp only [List.length_cons]; omega)
  · intro prog cmd rest e hne
    subst e
    simp only [main, if_neg hne]
  · intro prog rest v pos e hp hlen
    subst e
    simp only [main, if_true, runExtract, hp]
    match pos, hlen with
    | [], _ => rfl
    | [_], _ => rfl
    | _ :: _ :: _, h => exact absurd h (by simp only [List.length_cons]; omega)
  · intro call h
    match osArgs, h with
    | [], h => exact absurd h (by intro h; cases h)
    | [_], h => exact absurd h (by intro h; cases h)
    | prog :: cmd :: rest, h =>
      simp only [main] at h
      split at h
      · rename_i hc
        subst hc
        obtain ⟨v, input, output, more, hp, _⟩ := runExtract_call_from_Parse fl rest call h
        exact ⟨prog, rest, v, input :: output :: more, rfl, hp, by simp⟩
      · exact absurd h (by intro h; cases h)

theorem main_usage_or_Extract_witness :
    main textFloat ["pmtiles".toList] = Outcome.usageExit2 ∧
    main textFloat ["pmtiles".toList, "show".toList, "a".toList, "b".toList] = Outcome.usageExit2 ∧
    main textFloat ["pmtiles".toList, "extract".toList, "--dry-run".toList, "a".toList]
      = Outcome.usageExit2 :=
  ⟨(main_usage_or_Extract textFloat ["pmtiles".toList]).1 (by decide),
   (main_usage_or_Extract textFloat ["pmtiles".toList, "show".toList, "a".toList, "b".toList]).2.1
      "pmtiles".toList "show".toList ["a".toList, "b".toList] rfl (by decide),
   (main_usage_or_Extract textFloat
      ["pmtiles".toList, "extract".toList, "--dry-run".toList, "a".toList]).2.2.1
      "pmtiles".toList ["--dry-run".toList, "a".toList]
      { FlagVals.defaults textFloat with dryRun := true } ["a".toList] rfl rfl (by decide)⟩

/-- C9: for a flag value that reads as the integer `N`, `--minzoom=N` (and
likewise `--maxzoom=N`) passes `int8(N)` to `pmtiles.Extract`, which is
`((N + 128) mod 256) - 128`; it equals `N` exactly when `-128 ≤ N ≤ 127`, and
`--minzoom=255` passes -1, the same request as with the flag absent.
On every argument list that reaches the call, the zooms passed are `int8` of
the two flag variables as `fs.Parse` left them; and `fs.Parse`, in any state
and before any further arguments, reads `--minzoom=N` (`--maxzoom=N`) by
setting the variable to `N` and going on.  An argument written after the two
positionals is not read by `fs.Parse`: there the zoom passed stays -1. -/
theorem runExtract_zoom_int8 (fl : FloatOps) (val input output : GoString) (N : Int)
    (h : ParseInt val = (N, none)) (hin : startsFlag input = false) :
    runExtract fl ["--minzoom=".toList ++ val, input, output]
      = Outcome.callExtract { defaultCall fl input output with minzoom := toInt8 N } ∧
    runExtract fl ["--maxzoom=".toList ++ val, input, output]
      = Outcome.callExtract { defaultCall fl input output with maxzoom := toInt8 N } ∧
    toInt8 N = (N + 128) % 256 - 128 ∧
    (toInt8 N = N ↔ -128 ≤ N ∧ N ≤ 127) ∧
    ParseInt "255".toList = (255, none) ∧
    toInt8 255 = -1 ∧
    runExtract fl ["--minzoom=255".toList, input, output] = runExtract fl [input, output] ∧
    runExtract fl ["--maxzoom=255".toList, input, output] = runExtract fl [input, output] ∧
    (∀ (args : List GoString) (call : ExtractCall fl),
      runExtract fl args = Outcome.callExtract call →
      ∃ (v : FlagVals fl) (pos : List GoString),
        Parse fl (FlagVals.defaults fl) args = ParseEnd.ok v pos ∧
        call.minzoom = toInt8 v.minzoom ∧ call.maxzoom = toInt8 v.maxzoom) ∧
    (∀ (v : FlagVals fl) (rest : List GoString),
      Parse fl v (("--minzoom=".toList ++ val) :: rest)
        = Parse fl { v with minzoom := N } rest) ∧
    (∀ (v : FlagVals fl) (rest : List GoString),
      Parse fl v (("--maxzoom=".toList ++ val) :: rest)
        = Parse fl { v with maxzoom := N } rest) ∧
    runExtract fl [input, output, "--minzoom=".toList ++ val]
      = Outcome.callExtract (defaultCall fl input output) ∧
    runExtract fl [input, output, "--maxzoom=".toList ++ val]
      = Outcome.callExtract (defaultCall fl input output) := by
  refine ⟨runExtract_minzoom fl val input output N h hin,
    runExtract_maxzoom fl val input output N h hin, toInt8_eq_formula N, toInt8_eq_self_iff N,
    by decide, by decide, ?_, ?_, ?_, fun v rest => Parse_minzoom fl v val rest N h,
    fun v rest => Parse_maxzoom fl v val rest N h,
    runExtract_after_positionals fl input output _ hin,
    runExtract_after_positionals fl input output _ hin⟩
  · rw [runExtract_no_flags fl input output hin]
    exact runExtract_minzoom fl "255".toList input output 255 (by decide) hin
  · rw [runExtract_no_flags fl input output hin]
    exact runExtract_maxzoom fl "255".toList input output 255 (by decide) hin
  · intro args call hc
    obtain ⟨v, input, output, more, hp, e⟩ := runExtract_call_from_Parse fl args call hc
    exact ⟨v, input :: output :: more, hp, by rw [e], by rw [e]⟩

theorem runExtract_zoom_int8_witness :
    ParseInt "300".toList = (300, none) ∧ startsFlag "in".toList = false ∧
    runExtract textFloat ["--minzoom=".toList ++ "300".toList, "in".toList, "out".toList]
      = Outcome.callExtract
          { defaultCall textFloat "in".toList "out".toList with minzoom := toInt8 300 } ∧
    toInt8 300 = 44 ∧
    runExtract textFloat
        ["--maxzoom=7".toList, "--minzoom=300".toList, "in".toList, "out".toList]
      = Outcome.callExtract
          { defaultCall textFloat "in".toList "out".toList with minzoom := 44, maxzoom := 7 } ∧
    runExtract textFloat ["in".toList, "out".toList, "--minzoom=".toList ++ "300".toList]
      = Outcome.callExtract (defaultCall textFloat "in".toList "out".toList) :=
  ⟨by decide, rfl,
   (runExtract_zoom_int8 textFloat "300".toList "in".toList "out".toList 300 (by decide) rfl).1,
   by decide, rfl, rfl⟩

/-- C5 as stated fails: `--download-threads=0 in out` reaches the call of
`pmtiles.Extract` with worker count 0, and `--download-threads=-3 in out` with
worker count -3. -/
theorem runExtract_passes_nonpositive_threads :
    runExtract textFloat ["--download-threads=0".toList, "in".toList, "out".toList]
      = Outcome.callExtract
          { defaultCall textFloat "in".toList "out".toList with downloadThreads := 0 } ∧
    runExtract textFloat ["--download-threads=-3".toList, "in".toList, "out".toList]
      = Outcome.callExtract
          { defaultCall textFloat "in".toList "out".toList with downloadThreads := -3 } :=
  ⟨rfl, rfl⟩

/-- C5, as the code has it: the worker count passed to `pmtiles.Extract` is the
value of the `download-threads` flag variable as `fs.Parse` left it, with no
check of its sign: 4 when no flag is given, and `N` for `--download-threads=N`,
whatever integer `N` is. -/
theorem runExtract_threads_unchecked (fl : FloatOps) (val input output : GoString) (N : Int)
    (h : ParseInt val = (N, none)) (hin : startsFlag input = false) :
    runExtract fl ["--download-threads=".toList ++ val, input, output]
      = Outcome.callExtract { defaultCall fl input output with downloadThreads := N } ∧
    runExtract fl [input, output] = Outcome.callExtract (defaultCall fl input output) ∧
    (defaultCall fl input output).downloadThreads = 4 ∧
    (∀ (args : List GoString) (call : ExtractCall fl),
      runExtract fl args = Outcome.callExtract call →
      ∃ (v : FlagVals fl) (pos : List GoString),
        Parse fl (FlagVals.defaults fl) args = ParseEnd.ok v pos ∧
        call.downloadThreads = v.downloadThreads) := by
  refine ⟨?_, runExtract_no_flags fl input output hin, rfl, ?_⟩
  · simp only [runExtract, Parse, List.length, Parse.loop,
      parseOne_downloadThreads fl _ val _ N h, parseOne_stop_of_not_startsFlag fl _ _ _ hin]
    rfl
  · intro args call hc
    obtain ⟨v, input, output, more, hp, e⟩ := runExtract_call_from_Parse fl args call hc
    exact ⟨v, input :: output :: more, hp, by rw [e]⟩

theorem runExtract_threads_unchecked_witness :
    ParseInt "-3".toList = (-3, none) ∧ startsFlag "in".toList = false ∧
    runExtract textFloat ["--download-threads=".toList ++ "-3".toList, "in".toList, "out".toList]
      = Outcome.callExtract
          { defaultCall textFloat "in".toList "out".toList with downloadThreads := -3 } :=
  ⟨by decide, rfl,
   (runExtract_threads_unchecked textFloat "-3".toList "in".toList "out".toList (-3)
      (by decide) rfl).1⟩

/-- C6 as stated fails: `--bbox=10,10,5,5 in out`, a bbox whose min exceeds
its max on both axes, is not rejected: `runExtract` calls `pmtiles.Extract`
with the bbox text `10,10,5,5`. -/
theorem runExtract_passes_inverted_bbox :
    runExtract textFloat ["--bbox=10,10,5,5".toList, "in".toList, "out".toList]
      = Outcome.callExtract
          { defaultCall textFloat "in".toList "out".toList with bbox := "10,10,5,5".toList } :=
  rfl

/-- C6, as the code has it: `runExtract` does not look into the bbox; for
`--bbox=TEXT` it calls `pmtiles.Extract` with `TEXT` unchanged, whatever the
text is, and in every call the bbox passed is the flag variable as `fs.Parse`
left it. -/
theorem runExtract_bbox_unchecked (fl : FloatOps) (val input output : GoString)
    (hin : startsFlag input = false) :
    runExtract fl ["--bbox=".toList ++ val, input, output]
      = Outcome.callExtract { defaultCall fl input output with bbox := val } ∧
    (∀ (args : List GoString) (call : ExtractCall fl),
      runExtract fl args = Outcome.callExtract call →
      ∃ (v : FlagVals fl) (pos : List GoString),
        Parse fl (FlagVals.defaults fl) args = ParseEnd.ok v pos ∧ call.bbox = v.bbox) := by
  refine ⟨?_, ?_⟩
  · simp only [runExtract, Parse, List.length, Parse.loop, parseOne_bbox fl _ val _,
      parseOne_stop_of_not_startsFlag fl _ _ _ hin]
    rfl
  · intro args call hc
    obtain ⟨v, input, output, more, hp, e⟩ := runExtract_call_from_Parse fl args call hc
    exact ⟨v, input :: output :: more, hp, by rw [e]⟩

theorem runExtract_bbox_unchecked_witness :
    startsFlag "in".toList = false ∧
    runExtract textFloat ["--bbox=".toList ++ "10,10,5,5".toList, "in".toList, "out".toList]
      = Outcome.callExtract
          { defaultCall textFloat "in".toList "out".toList with bbox := "10,10,5,5".toList } :=
  ⟨rfl, (runExtract_bbox_unchecked textFloat "10,10,5,5".toList "in".toList "out".toList rfl).1⟩

end Pmtiles
